import Mathlib

/-!
# Shadow Strength storefront: cart store, cart mutations, checkout

A shallow embedding of `src/js/main.js`.

Modelling conventions.

* JavaScript numbers are modelled by `JSNum`: `NaN`, the two infinities, or a finite
  number carried by its exact rational value.  Every arithmetic result is rounded to the
  nearest double (`roundDouble`: 53 significant bits, ties to even, subnormals down to
  `2^-1074`, overflow to an infinity from `2^1024`), as IEEE 754 binary64 does.
* Quantities of stored line items are integers; `++` and `--` on them are double additions
  (`incrementNumber`, `decrementNumber`).
* `localStorage` holds text.  `JSON.parse` and `JSON.stringify` are built-ins of the
  platform, so the slot `CART_KEY` is represented by what `JSON.parse` makes of its text
  (`Stored`), and `saveCart` by the value its text parses back to.
* The handlers of the cart (`addToCart`, `handleCartClick`) are modelled on typed carts
  (`Cart`): the argument is the cart `loadCart()` returned, the result is the cart handed to
  `saveCart`.
-/

namespace Shadowstrength

/-! ## JavaScript values -/

/-- A JavaScript number: `NaN`, `Infinity`, `-Infinity`, or a finite number given by its
exact value (both zeros are `fin 0`). -/
inductive JSNum where
  | nan
  | posInf
  | negInf
  | fin (q : ℚ)
  deriving DecidableEq

/-- Truthiness of a number (`ToBoolean`): every number except `0`, `-0` and `NaN`. -/
def JSNum.truthy : JSNum → Bool
  | .nan => false
  | .posInf => true
  | .negInf => true
  | .fin q => q != 0

/-- The integer nearest to `s`, a tie going to the even one. -/
def roundHalfEven (s : ℚ) : ℤ :=
  if s - ⌊s⌋ < 1 / 2 then ⌊s⌋
  else if 1 / 2 < s - ⌊s⌋ then ⌊s⌋ + 1
  else if ⌊s⌋ % 2 = 0 then ⌊s⌋ else ⌊s⌋ + 1

/-- The exponent of the unit in the last place of the doubles around `x`: 52 below the
binary exponent of `x`, and never below `-1074` (the subnormal range). -/
def quantum (x : ℚ) : ℤ :=
  max (Int.log 2 |x| - 52) (-1074)

/-- The multiple of `2 ^ quantum x` nearest to `x`, a tie going to the even multiple: the
double nearest to `x` when that is finite. -/
def nearestDouble (x : ℚ) : ℚ :=
  (roundHalfEven (x / 2 ^ quantum x) : ℚ) * 2 ^ quantum x

/-- Rounding of an exact result to a double (round to nearest, ties to even): from
magnitude `2^1024` the result is an infinity. -/
def roundDouble (x : ℚ) : JSNum :=
  if 2 ^ 1024 ≤ |nearestDouble x| then (if x < 0 then .negInf else .posInf)
  else .fin (nearestDouble x)

/-- Addition of two numbers (`+`): `NaN` is absorbing, the two infinities add to `NaN`, and
a finite sum is rounded. -/
def JSNum.add : JSNum → JSNum → JSNum
  | .nan, _ => .nan
  | _, .nan => .nan
  | .posInf, .negInf => .nan
  | .negInf, .posInf => .nan
  | .posInf, _ => .posInf
  | _, .posInf => .posInf
  | .negInf, _ => .negInf
  | _, .negInf => .negInf
  | .fin a, .fin b => roundDouble (a + b)

/-- The value of `q++` for an integer `q`: the double nearest to `q + 1`.  The double nearest
to an integer is an integer, and for a stored quantity, a double, it is finite. -/
def incrementNumber (q : ℤ) : ℤ :=
  ⌊nearestDouble ((q : ℚ) + 1)⌋

/-- The value of `q--` for an integer `q`: the double nearest to `q - 1`. -/
def decrementNumber (q : ℤ) : ℤ :=
  ⌊nearestDouble ((q : ℚ) - 1)⌋

/-- The values `JSON.parse` can produce. -/
inductive JSValue where
  | null
  | bool (b : Bool)
  | num (n : JSNum)
  | str (s : String)
  | arr (xs : List JSValue)
  | obj (fields : List (String × JSValue))

/-- Truthiness of a value (`ToBoolean`): `null`, `false`, `0`, `NaN` and `""` are falsy,
everything else, arrays and objects included, is truthy. -/
def truthy : JSValue → Bool
  | .null => false
  | .bool b => b
  | .num n => n.truthy
  | .str s => s != ""
  | .arr _ => true
  | .obj _ => true

/-- Truthiness of a `dataset` entry: `undefined` (attribute absent, `none`) and the empty
string are falsy. -/
def truthyStr : Option String → Bool
  | none => false
  | some s => s != ""

/-! ## Data model -/

/-- One entry of the cart as it is stored: `{id, name, price, quantity}`.  The price is
`none` for JSON `null` (what `JSON.stringify` writes for a non-finite number) and `some q`
for a finite number; the quantity is an integer. -/
structure LineItem where
  id : String
  name : String
  price : Option ℚ
  quantity : Int
  deriving DecidableEq

/-- The cart: an ordered sequence of line items. -/
abbrev Cart := List LineItem

/-- What `JSON.stringify` followed by `JSON.parse` makes of a number in a cart: a finite
number is kept, `NaN` and the infinities become `null`. -/
def jsonNumber : JSNum → Option ℚ
  | .fin q => some q
  | _ => none

/-- The numeric value of a stored price in arithmetic (`ToNumber(null)` is `0`). -/
def priceValue : Option ℚ → ℚ
  | some q => q
  | none => 0

/-- The JSON value of a stored price. -/
def encodePrice : Option ℚ → JSValue
  | some q => .num (.fin q)
  | none => .null

/-- The JSON value of a line item. -/
def encodeItem (it : LineItem) : JSValue :=
  .obj [("id", .str it.id), ("name", .str it.name), ("price", encodePrice it.price),
    ("quantity", .num (.fin it.quantity))]

/-- The JSON value of a cart: what the text written by `JSON.stringify(cart)` parses to. -/
def encodeCart (cart : Cart) : JSValue :=
  .arr (cart.map encodeItem)

/-! ## Cart storage (lines 10-31) -/

/-- The `localStorage` slot `CART_KEY`, seen through `JSON.parse`: the key is absent, or it
holds text that `JSON.parse` rejects, or text that parses to `v`. -/
inductive Stored where
  | missing
  | unparsable
  | json (v : JSValue)

/-- The outcome of `JSON.parse(localStorage.getItem(CART_KEY))`: for an absent key `getItem`
gives `null`, which `JSON.parse` reads as the text `null`; a syntax error is thrown for
unparsable text. -/
def jsonParseItem : Stored → Except Unit JSValue
  | .missing => .ok .null
  | .unparsable => .error ()
  | .json v => .ok v

/-- Embeds `loadCart`: `try { return JSON.parse(...) || []; } catch { return []; }`. -/
def loadCart (s : Stored) : JSValue :=
  match jsonParseItem s with
  | .ok v => if truthy v then v else .arr []
  | .error _ => .arr []

/-- Embeds `saveCart`: `localStorage.setItem(CART_KEY, JSON.stringify(cart))`; the slot then
holds the text of `cart`. -/
def saveCart (cart : Cart) : Stored :=
  .json (encodeCart cart)

/-- Embeds `cartTotal`: `cart.reduce((sum, item) => sum + item.price * item.quantity, 0)`.
The product of the two finite numbers is rounded, then the sum is. -/
def cartTotal (cart : Cart) : JSNum :=
  cart.foldl
    (fun sum item => sum.add (roundDouble (priceValue item.price * (item.quantity : ℚ))))
    (.fin 0)

/-- The sum over the items of price times quantity in exact arithmetic. -/
def exactTotal (cart : Cart) : ℚ :=
  (cart.map (fun item => priceValue item.price * (item.quantity : ℚ))).sum

/-- The sum over the items of the magnitude of price times quantity. -/
def absTotal (cart : Cart) : ℚ :=
  (cart.map (fun item => |priceValue item.price * (item.quantity : ℚ)|)).sum

/-- A rational number is a double: rounding leaves it as it is. -/
def Representable (x : ℚ) : Prop :=
  roundDouble x = .fin x

instance (x : ℚ) : Decidable (Representable x) := by
  unfold Representable
  infer_instance

/-- Nothing is rounded when `cartTotal` runs on `cart` from the partial sum `acc`: every
product and every partial sum is a double. -/
def NoRounding : ℚ → Cart → Prop
  | _, [] => True
  | acc, item :: rest =>
    Representable (priceValue item.price * (item.quantity : ℚ)) ∧
    Representable (acc + priceValue item.price * (item.quantity : ℚ)) ∧
    NoRounding (acc + priceValue item.price * (item.quantity : ℚ)) rest

/-- Embeds `formatPrice`: `"$" + num.toFixed(2)`; `toFixed` is the built-in
`Number.prototype.toFixed`, taken as a parameter. -/
def formatPrice (toFixed : JSNum → Nat → String) (num : JSNum) : String :=
  "$" ++ toFixed num 2

/-- Decimal rendering in the manner of `Number.prototype.toFixed` for magnitudes below
`10^21`: the magnitude is rounded to `digits` decimals, a tie going up, and a negative
number gets a leading minus sign. -/
def toFixedDecimal (x : ℚ) (digits : Nat) : String :=
  let n : Nat := (|x| * 10 ^ digits + 1 / 2).floor.toNat
  let whole := toString (n / 10 ^ digits)
  let frac := toString (n % 10 ^ digits)
  (if x < 0 then "-" else "") ++ whole ++
    (if digits = 0 then ""
     else "." ++ String.mk (List.replicate (digits - frac.length) '0') ++ frac)

/-- Rendering in the manner of `Number.prototype.toFixed`: `NaN` and the infinities by
name, a finite number in decimals. -/
def toFixedNumber : JSNum → Nat → String
  | .nan, _ => "NaN"
  | .posInf, _ => "Infinity"
  | .negInf, _ => "-Infinity"
  | .fin x, digits => toFixedDecimal x digits

/-- The quantity shown by `updateCartBadge`: `cart.reduce((s, i) => s + i.quantity, 0)`. -/
def badgeQuantity (cart : Cart) : JSNum :=
  cart.foldl (fun s i => s.add (.fin (i.quantity : ℚ))) (.fin 0)

/-! ## Array helpers -/

/-- Embeds `Array.prototype.findIndex` with the callback `i => i.id === id`; `none` stands
for `-1`.  The `id` comes from a `dataset` and may be `undefined` (`none`), which equals no
stored id. -/
def findIndex : Cart → Option String → Option Nat
  | [], _ => none
  | i :: rest, id => if some i.id == id then some 0 else (findIndex rest id).map (· + 1)

/-- Assignment to a field of the object at position `k` of the array: `Array.prototype.find`
returns a reference to the element, so updating the object it returned updates the array
in place. -/
def updateAt (cart : Cart) (k : Nat) (f : LineItem → LineItem) : Cart :=
  match cart, k with
  | [], _ => []
  | x :: xs, 0 => f x :: xs
  | x :: xs, k + 1 => x :: updateAt xs k f

/-- Embeds `cart.splice(index, 1)`: the element at `index` is removed. -/
def splice1 (cart : Cart) (index : Nat) : Cart :=
  cart.eraseIdx index

/-! ## Add to cart (lines 109-129) -/

/-- The `dataset` of an add-to-cart button as `addToCart` reads it: `id` and `name` are
the attributes (absent: `none`), `price` is the value of `parseFloat(btn.dataset.price)`. -/
structure Button where
  id : Option String
  name : Option String
  price : JSNum

/-- The guard of line 114 lets the call through: `!id || !name || !price` is false. -/
def guardPasses (btn : Button) : Bool :=
  !(!truthyStr btn.id || !truthyStr btn.name || !btn.price.truthy)

/-- Embeds `addToCart`: `cart` is what `loadCart()` returned; the result is the cart handed
to `saveCart`, as the store then holds it, or `none` when the function returns at line 114
without saving.  `cart.find` gives the first item with the id, and `existing.quantity++`
updates that item inside the array.  Past the guard `id` and `name` are strings. -/
def addToCart (cart : Cart) (btn : Button) : Option Cart :=
  if !truthyStr btn.id || !truthyStr btn.name || !btn.price.truthy then none
  else
    match findIndex cart btn.id with
    | some k => some (updateAt cart k (fun existing =>
        { existing with quantity := incrementNumber existing.quantity }))
    | none => some (cart ++ [
        { id := btn.id.getD "", name := btn.name.getD "", price := jsonNumber btn.price,
          quantity := 1 }])

/-- The stored cart after `addToCart`: the saved cart, or the old one when nothing is
saved. -/
def storeAfterAdd (cart : Cart) (btn : Button) : Cart :=
  (addToCart cart btn).getD cart

/-! ## Modify cart items (lines 134-164) -/

/-- The target of a click inside the cart overlay: its class list and its `data-id`. -/
structure Target where
  classList : List String
  id : Option String

/-- The `qty-plus` branch (lines 139-141): `if (item) item.quantity++`. -/
def qtyPlus (cart : Cart) (id : Option String) : Cart :=
  match findIndex cart id with
  | some k => updateAt cart k (fun item =>
      { item with quantity := incrementNumber item.quantity })
  | none => cart

/-- The `qty-minus` branch (lines 146-148): `if (item && item.quantity > 1) item.quantity--`. -/
def qtyMinus (cart : Cart) (id : Option String) : Cart :=
  match findIndex cart id with
  | some k => updateAt cart k (fun item =>
      if item.quantity > 1 then { item with quantity := decrementNumber item.quantity }
      else item)
  | none => cart

/-- The `cart-remove-btn` branch (lines 153-155): `if (index >= 0) cart.splice(index, 1)`. -/
def cartRemove (cart : Cart) (id : Option String) : Cart :=
  match findIndex cart id with
  | some index => splice1 cart index
  | none => cart

/-- Embeds `handleCartClick`: the three class tests run one after the other on the same
array; the result is the cart handed to `saveCart`, or `none` when `changed` stays false. -/
def handleCartClick (cart : Cart) (target : Target) : Option Cart :=
  let c1 := if target.classList.contains "qty-plus" then qtyPlus cart target.id else cart
  let c2 := if target.classList.contains "qty-minus" then qtyMinus c1 target.id else c1
  let c3 := if target.classList.contains "cart-remove-btn" then cartRemove c2 target.id else c2
  let changed := target.classList.contains "qty-plus" || target.classList.contains "qty-minus"
    || target.classList.contains "cart-remove-btn"
  if changed then some c3 else none

/-- The stored cart after `handleCartClick`: the saved cart, or the old one when nothing is
saved. -/
def storeAfterClick (cart : Cart) (target : Target) : Cart :=
  (handleCartClick cart target).getD cart

/-! ## Well-formed carts -/

/-- No two items share an id, and every quantity is at least 1. -/
def WellFormed (cart : Cart) : Prop :=
  (cart.map (fun it => it.id)).Nodup ∧ ∀ it ∈ cart, 1 ≤ it.quantity

instance (cart : Cart) : Decidable (WellFormed cart) := by
  unfold WellFormed
  infer_instance

/-- A JSON value is a stored price: a number or `null`. -/
def isPriceValue : JSValue → Bool
  | .num _ => true
  | .null => true
  | _ => false

/-- A JSON value is a line item: an object whose `id` and `name` are strings, whose `price`
is a number or `null`, and whose `quantity` is a number. -/
def isLineItem : JSValue → Bool
  | .obj fields =>
    match fields.lookup "id", fields.lookup "name", fields.lookup "price",
      fields.lookup "quantity" with
    | some (.str _), some (.str _), some p, some (.num _) => isPriceValue p
    | _, _, _, _ => false
  | _ => false

/-- A JSON value is a sequence of line items. -/
def isCartValue : JSValue → Bool
  | .arr xs => xs.all isLineItem
  | _ => false

/-! ## Checkout (lines 193-228) -/

/-- The two steps of the checkout page. -/
inductive CheckoutStep where
  | Delivery
  | Payment
  deriving DecidableEq

/-- What the handlers registered by `setupCheckout` read and write: the `hidden` class of
the two forms, the `active` class of the two step markers, the two summary texts, the cart
in `localStorage` with the number of `loadCart` and `saveCart` calls made on it, the text
of the badge `#cartCount` (`none` on a page without one), the alerts shown, and the address
assigned to `window.location.href`, if any. -/
structure CheckoutState where
  deliveryHidden : Bool
  paymentHidden : Bool
  step0Active : Bool
  step1Active : Bool
  summaryItemsTotal : String
  summaryOrderTotal : String
  store : Cart
  reads : Nat
  writes : Nat
  badge : Option JSNum
  alerts : List String
  location : Option String
  deriving DecidableEq

/-- The step a page state shows: `Payment` once the payment form is no longer hidden. -/
def CheckoutState.step (s : CheckoutState) : CheckoutStep :=
  if s.paymentHidden then .Delivery else .Payment

/-- Embeds `updateCartBadge`: without the badge element it returns at once; otherwise it
loads the cart and writes the summed quantity. -/
def updateCartBadge (s : CheckoutState) : CheckoutState :=
  match s.badge with
  | none => s
  | some _ => { s with reads := s.reads + 1, badge := some (badgeQuantity s.store) }

/-- Embeds the click handler of `#toPayment` (lines 202-216); `deliveryValid` is the result
of `deliveryForm.reportValidity()`.  The page is taken to have the two step markers and the
two summary elements the handler writes to. -/
def toPaymentClick (toFixed : JSNum → Nat → String) (deliveryValid : Bool)
    (s : CheckoutState) :
    CheckoutState :=
  if !deliveryValid then s
  else
    let cart := s.store
    { s with
      deliveryHidden := true
      paymentHidden := false
      step0Active := false
      step1Active := true
      reads := s.reads + 1
      summaryItemsTotal := formatPrice toFixed (cartTotal cart)
      summaryOrderTotal := formatPrice toFixed (cartTotal cart) }

/-- Embeds the submit handler of `#paymentForm` (lines 218-227); `paymentValid` is the
result of `paymentForm.reportValidity()`. -/
def paymentSubmit (paymentValid : Bool) (s : CheckoutState) : CheckoutState :=
  if !paymentValid then s
  else
    let s1 := { s with
      alerts := s.alerts ++ ["Order placed successfully! (Demo — no real payment processed)"] }
    let s2 := { s1 with store := [], writes := s1.writes + 1 }
    let s3 := updateCartBadge s2
    { s3 with location := some "index.html" }

/-- The events of the checkout page. -/
inductive CheckoutEvent where
  | toPayment (deliveryValid : Bool)
  | submitPayment (paymentValid : Bool)

/-- One step of the checkout page: the handler of the event runs on the state. -/
def checkoutStep (toFixed : JSNum → Nat → String) (ev : CheckoutEvent) (s : CheckoutState) :
    CheckoutState :=
  match ev with
  | .toPayment deliveryValid => toPaymentClick toFixed deliveryValid s
  | .submitPayment paymentValid => paymentSubmit paymentValid s

/-- The page state after a sequence of events, handled one after the other. -/
def runCheckout (toFixed : JSNum → Nat → String) (evs : List CheckoutEvent)
    (s : CheckoutState) :
    CheckoutState :=
  evs.foldl (fun st ev => checkoutStep toFixed ev st) s

/-- The completion signal of the place-order handler: the success alert is shown and the
browser is sent to `index.html`. -/
def completionSignal (before after : CheckoutState) : Prop :=
  after.alerts = before.alerts ++ ["Order placed successfully! (Demo — no real payment processed)"]
    ∧ after.location = some "index.html"

instance (before after : CheckoutState) : Decidable (completionSignal before after) := by
  unfold completionSignal
  infer_instance

/-- A checkout page as it is first shown, with one item in the stored cart: the delivery
form is visible, the payment form hidden. -/
def deliveryPage : CheckoutState :=
  { deliveryHidden := false
    paymentHidden := true
    step0Active := true
    step1Active := false
    summaryItemsTotal := ""
    summaryOrderTotal := ""
    store := [⟨"sku1", "Bar", some (2999 / 100), 1⟩]
    reads := 0
    writes := 0
    badge := some (.fin 1)
    alerts := []
    location := none }

/-! ## Lemmas on rounding -/

theorem roundHalfEven_intCast (k : ℤ) : roundHalfEven (k : ℚ) = k := by
  simp [roundHalfEven]

theorem floor_le_roundHalfEven (s : ℚ) : ⌊s⌋ ≤ roundHalfEven s := by
  unfold roundHalfEven
  split_ifs <;> omega

theorem roundHalfEven_tie (f : ℤ) :
    roundHalfEven ((f : ℚ) + 1 / 2) = if f % 2 = 0 then f else f + 1 := by
  have hfl : ⌊(f : ℚ) + 1 / 2⌋ = f := by
    rw [Int.floor_eq_iff]
    constructor <;> norm_num
  unfold roundHalfEven
  rw [hfl]
  norm_num

theorem roundHalfEven_up (s : ℚ) (f : ℤ) (h1 : (f : ℚ) + 1 / 2 < s) (h2 : s < (f : ℚ) + 1) :
    roundHalfEven s = f + 1 := by
  have hfl : ⌊s⌋ = f := by
    rw [Int.floor_eq_iff]
    constructor <;> linarith
  unfold roundHalfEven
  rw [hfl, if_neg (by linarith), if_pos (by linarith)]

theorem log2_eq {x : ℚ} (E : ℤ) (h1 : (2 : ℚ) ^ E ≤ |x|) (h2 : |x| < (2 : ℚ) ^ (E + 1)) :
    Int.log 2 |x| = E := by
  have hpos : (0 : ℚ) < |x| := lt_of_lt_of_le (by positivity) h1
  have ha : E ≤ Int.log 2 |x| :=
    (Int.zpow_le_iff_le_log (by norm_num) hpos).mp (by exact_mod_cast h1)
  have hb : Int.log 2 |x| < E + 1 :=
    (Int.lt_zpow_iff_log_lt (by norm_num) hpos).mp (by exact_mod_cast h2)
  omega

theorem quantum_eq {x : ℚ} (E : ℤ) (h1 : (2 : ℚ) ^ E ≤ |x|) (h2 : |x| < (2 : ℚ) ^ (E + 1))
    (hE : -1022 ≤ E) : quantum x = E - 52 := by
  unfold quantum
  rw [log2_eq E h1 h2]
  omega

theorem quantum_le {x : ℚ} {e : ℤ} (he : -1074 ≤ e) (hx : |x| < (2 : ℚ) ^ (53 + e))
    (hx0 : x ≠ 0) : quantum x ≤ e := by
  have hpos : (0 : ℚ) < |x| := abs_pos.mpr hx0
  have hb : Int.log 2 |x| < 53 + e :=
    (Int.lt_zpow_iff_log_lt (by norm_num) hpos).mp (by exact_mod_cast hx)
  unfold quantum
  omega

theorem nearestDouble_exact_lt (m e : ℤ) (hm : |m| < 2 ^ 53) (he : -1074 ≤ e) :
    nearestDouble ((m : ℚ) * 2 ^ e) = (m : ℚ) * 2 ^ e := by
  by_cases hm0 : m = 0
  · subst hm0
    simp [nearestDouble, roundHalfEven]
  have h2 : (0 : ℚ) < 2 ^ e := by positivity
  have hx0 : (m : ℚ) * 2 ^ e ≠ 0 := mul_ne_zero (by exact_mod_cast hm0) (ne_of_gt h2)
  have habs : |(m : ℚ) * 2 ^ e| < (2 : ℚ) ^ (53 + e) := by
    rw [abs_mul, abs_of_pos h2, zpow_add₀ (by norm_num : (2 : ℚ) ≠ 0)]
    apply mul_lt_mul_of_pos_right _ h2
    have : ((|m| : ℤ) : ℚ) < ((2 ^ 53 : ℤ) : ℚ) := Int.cast_lt.mpr hm
    rw [Int.cast_abs] at this
    push_cast at this
    exact lt_of_lt_of_eq this (by norm_num)
  have hq := quantum_le he habs hx0
  obtain ⟨d, hd⟩ : ∃ d : ℕ, e = quantum ((m : ℚ) * 2 ^ e) + d :=
    ⟨(e - quantum ((m : ℚ) * 2 ^ e)).toNat, by omega⟩
  unfold nearestDouble
  generalize quantum ((m : ℚ) * 2 ^ e) = qe at hd hq ⊢
  have hqe : (0 : ℚ) < 2 ^ qe := by positivity
  have hdiv : (m : ℚ) * 2 ^ e / 2 ^ qe = ((m * 2 ^ d : ℤ) : ℚ) := by
    rw [hd, zpow_add₀ (by norm_num : (2 : ℚ) ≠ 0)]
    field_simp
    ring
  rw [hdiv, roundHalfEven_intCast, hd, zpow_add₀ (by norm_num : (2 : ℚ) ≠ 0), zpow_natCast]
  push_cast
  ring

/-- A number `m * 2 ^ e` with `|m|` at most `2 ^ 53` and `e` at least `-1074` is its own
nearest double. -/
theorem nearestDouble_exact (m e : ℤ) (hm : |m| ≤ 2 ^ 53) (he : -1074 ≤ e) :
    nearestDouble ((m : ℚ) * 2 ^ e) = (m : ℚ) * 2 ^ e := by
  rcases lt_or_eq_of_le hm with h | h
  · exact nearestDouble_exact_lt m e h he
  · obtain ⟨k, hk, hk2⟩ : ∃ k : ℤ, m = 2 * k ∧ |k| < 2 ^ 53 := by
      rcases abs_cases m with ⟨h1, _⟩ | ⟨h1, _⟩
      · exact ⟨2 ^ 52, by omega, by norm_num⟩
      · exact ⟨-2 ^ 52, by omega, by norm_num⟩
    have hx : (m : ℚ) * 2 ^ e = (k : ℚ) * 2 ^ (e + 1) := by
      rw [hk, zpow_add₀ (by norm_num : (2 : ℚ) ≠ 0)]
      push_cast
      ring
    rw [hx]
    exact nearestDouble_exact_lt k (e + 1) hk2 (by omega)

theorem nearestDouble_int (n : ℤ) (hn : |n| ≤ 2 ^ 53) : nearestDouble (n : ℚ) = n := by
  have := nearestDouble_exact n 0 hn (by norm_num)
  simpa using this

theorem roundDouble_of_nearest {x r : ℚ} (h : nearestDouble x = r) (hr : |r| < 2 ^ 1024) :
    roundDouble x = .fin r := by
  unfold roundDouble
  rw [h, if_neg (not_le.mpr hr)]

theorem representable_exact (m e : ℤ) (hm : |m| ≤ 2 ^ 53) (he : -1074 ≤ e)
    (hx : |(m : ℚ) * 2 ^ e| < 2 ^ 1024) : Representable ((m : ℚ) * 2 ^ e) :=
  roundDouble_of_nearest (nearestDouble_exact m e hm he) hx

/-- Every integer of magnitude at most `2 ^ 53` is a double. -/
theorem representable_int (n : ℤ) (hn : |n| ≤ 2 ^ 53) (x : ℚ) (hx : x = n) :
    Representable x := by
  subst hx
  refine roundDouble_of_nearest (nearestDouble_int n hn) ?_
  have h1 : ((|n| : ℤ) : ℚ) ≤ ((2 ^ 53 : ℤ) : ℚ) := Int.cast_le.mpr hn
  rw [Int.cast_abs] at h1
  push_cast at h1
  exact lt_of_le_of_lt h1 (by norm_num)

theorem one_le_nearestDouble {x : ℚ} (hx : 1 ≤ x) : 1 ≤ nearestDouble x := by
  have hpos : (0 : ℚ) < |x| := by rw [abs_of_pos (by linarith)]; linarith
  have habs : |x| = x := abs_of_pos (by linarith)
  have hlog : 0 ≤ Int.log 2 |x| :=
    (Int.zpow_le_iff_le_log (by norm_num) hpos).mp (by simpa [habs] using hx)
  have hq : quantum x = Int.log 2 |x| - 52 := by unfold quantum; omega
  have hle : (2 : ℚ) ^ Int.log 2 |x| ≤ x := by
    have := Int.zpow_log_le_self (b := 2) (r := |x|) (by norm_num) hpos
    rw [habs] at this ⊢
    exact_mod_cast this
  unfold nearestDouble
  rw [hq]
  generalize Int.log 2 |x| = L at hlog hle
  have hpq : (0 : ℚ) < 2 ^ (L - 52) := by positivity
  have hsplit : ((2 ^ 52 : ℤ) : ℚ) * 2 ^ (L - 52) = 2 ^ L := by
    rw [zpow_sub₀ (by norm_num : (2 : ℚ) ≠ 0)]
    push_cast
    field_simp
    ring
  have hs : ((2 ^ 52 : ℤ) : ℚ) ≤ x / 2 ^ (L - 52) := by
    rw [le_div_iff₀ hpq, hsplit]
    exact hle
  have hfl : (2 ^ 52 : ℤ) ≤ roundHalfEven (x / 2 ^ (L - 52)) :=
    le_trans (Int.le_floor.mpr hs) (floor_le_roundHalfEven _)
  have hfl2 : ((2 ^ 52 : ℤ) : ℚ) ≤ (roundHalfEven (x / 2 ^ (L - 52)) : ℚ) := by
    exact_mod_cast hfl
  have h1 : (1 : ℚ) ≤ 2 ^ L := one_le_zpow₀ (by norm_num) hlog
  calc (1 : ℚ) ≤ 2 ^ L := h1
    _ = ((2 ^ 52 : ℤ) : ℚ) * 2 ^ (L - 52) := hsplit.symm
    _ ≤ (roundHalfEven (x / 2 ^ (L - 52)) : ℚ) * 2 ^ (L - 52) :=
      mul_le_mul_of_nonneg_right hfl2 (le_of_lt hpq)

/-- The double nearest to an integer is an integer. -/
theorem nearestDouble_int_isInt (n : ℤ) : ∃ k : ℤ, nearestDouble (n : ℚ) = k := by
  rcases le_or_lt |n| (2 ^ 53) with h | h
  · exact ⟨n, nearestDouble_int n h⟩
  · have hpos : (0 : ℚ) < |(n : ℚ)| := by
      have : (0 : ℤ) < |n| := lt_trans (by norm_num) h
      exact_mod_cast this
    have hlog : 53 ≤ Int.log 2 |(n : ℚ)| := by
      apply (Int.zpow_le_iff_le_log (by norm_num) hpos).mp
      have : ((2 ^ 53 : ℤ) : ℚ) ≤ ((|n| : ℤ) : ℚ) := Int.cast_le.mpr (le_of_lt h)
      rw [Int.cast_abs] at this
      push_cast at this
      exact_mod_cast this
    have hq : 0 ≤ quantum (n : ℚ) := by unfold quantum; omega
    obtain ⟨d, hd⟩ : ∃ d : ℕ, quantum (n : ℚ) = d := ⟨(quantum (n : ℚ)).toNat, by omega⟩
    refine ⟨roundHalfEven ((n : ℚ) / 2 ^ quantum (n : ℚ)) * 2 ^ d, ?_⟩
    unfold nearestDouble
    rw [hd, zpow_natCast]
    push_cast
    rfl

theorem nearestDouble_two_pow_53_add_one : nearestDouble (2 ^ 53 + 1) = 2 ^ 53 := by
  have hq : quantum (2 ^ 53 + 1 : ℚ) = 53 - 52 :=
    quantum_eq 53 (by rw [abs_of_pos (by norm_num)]; norm_num)
      (by rw [abs_of_pos (by norm_num)]; norm_num) (by norm_num)
  have hs : (2 ^ 53 + 1 : ℚ) / 2 ^ (53 - 52 : ℤ) = ((2 ^ 52 : ℤ) : ℚ) + 1 / 2 := by norm_num
  unfold nearestDouble
  rw [hq, hs, roundHalfEven_tie]
  norm_num

theorem nearestDouble_tenth :
    nearestDouble (1 / 10) = 3602879701896397 / 36028797018963968 := by
  have hq : quantum (1 / 10 : ℚ) = -4 - 52 :=
    quantum_eq (-4) (by rw [abs_of_pos (by norm_num)]; norm_num)
      (by rw [abs_of_pos (by norm_num)]; norm_num) (by norm_num)
  have hr : roundHalfEven ((1 / 10 : ℚ) / 2 ^ (-4 - 52 : ℤ)) = 7205759403792793 + 1 :=
    roundHalfEven_up _ 7205759403792793 (by norm_num) (by norm_num)
  unfold nearestDouble
  rw [hq, hr]
  norm_num

theorem nearestDouble_tenth_times_three :
    nearestDouble (3602879701896397 / 36028797018963968 * 3) =
      5404319552844596 / 18014398509481984 := by
  have hq : quantum (3602879701896397 / 36028797018963968 * 3 : ℚ) = -2 - 52 :=
    quantum_eq (-2) (by rw [abs_of_pos (by norm_num)]; norm_num)
      (by rw [abs_of_pos (by norm_num)]; norm_num) (by norm_num)
  have hs : (3602879701896397 / 36028797018963968 * 3 : ℚ) / 2 ^ (-2 - 52 : ℤ) =
      ((5404319552844595 : ℤ) : ℚ) + 1 / 2 := by norm_num
  unfold nearestDouble
  rw [hq, hs, roundHalfEven_tie]
  norm_num

theorem incrementNumber_exact (q : ℤ) (h1 : -2 ^ 53 ≤ q) (h2 : q < 2 ^ 53) :
    incrementNumber q = q + 1 := by
  have h : nearestDouble (((q + 1 : ℤ)) : ℚ) = ((q + 1 : ℤ) : ℚ) :=
    nearestDouble_int (q + 1) (abs_le.mpr ⟨by omega, by omega⟩)
  unfold incrementNumber
  rw [show (q : ℚ) + 1 = ((q + 1 : ℤ) : ℚ) by push_cast; rfl, h, Int.floor_intCast]

theorem decrementNumber_exact (q : ℤ) (h1 : -2 ^ 53 < q) (h2 : q ≤ 2 ^ 53) :
    decrementNumber q = q - 1 := by
  have h : nearestDouble (((q - 1 : ℤ)) : ℚ) = ((q - 1 : ℤ) : ℚ) :=
    nearestDouble_int (q - 1) (abs_le.mpr ⟨by omega, by omega⟩)
  unfold decrementNumber
  rw [show (q : ℚ) - 1 = ((q - 1 : ℤ) : ℚ) by push_cast; rfl, h, Int.floor_intCast]

theorem one_le_incrementNumber (q : ℤ) (h : 1 ≤ q) : 1 ≤ incrementNumber q := by
  have hx : (1 : ℚ) ≤ (q : ℚ) + 1 := by
    have : (1 : ℚ) ≤ (q : ℚ) := by exact_mod_cast h
    linarith
  exact Int.le_floor.mpr (by simpa using one_le_nearestDouble hx)

theorem one_le_decrementNumber (q : ℤ) (h : 1 < q) : 1 ≤ decrementNumber q := by
  have hx : (1 : ℚ) ≤ (q : ℚ) - 1 := by
    have : (2 : ℚ) ≤ (q : ℚ) := by exact_mod_cast h
    linarith
  exact Int.le_floor.mpr (by simpa using one_le_nearestDouble hx)

theorem incrementNumber_two_pow_53 : incrementNumber (2 ^ 53) = 2 ^ 53 := by
  unfold incrementNumber
  rw [show (((2 ^ 53 : ℤ)) : ℚ) + 1 = 2 ^ 53 + 1 by norm_num, nearestDouble_two_pow_53_add_one]
  rw [show (2 ^ 53 : ℚ) = (((2 ^ 53 : ℤ)) : ℚ) by norm_num, Int.floor_intCast]

theorem decrementNumber_two_pow_53_add_two : decrementNumber (2 ^ 53 + 2) = 2 ^ 53 := by
  unfold decrementNumber
  rw [show (((2 ^ 53 + 2 : ℤ)) : ℚ) - 1 = 2 ^ 53 + 1 by norm_num,
    nearestDouble_two_pow_53_add_one]
  rw [show (2 ^ 53 : ℚ) = (((2 ^ 53 : ℤ)) : ℚ) by norm_num, Int.floor_intCast]

/-! ## Lemmas on the array helpers -/

theorem findIndex_eq_none {cart : Cart} {id : Option String} :
    findIndex cart id = none ↔ ∀ x ∈ cart, some x.id ≠ id := by
  induction cart with
  | nil => simp [findIndex]
  | cons a rest ih =>
    by_cases h : some a.id = id
    · simp [findIndex, h]
    · simp [findIndex, h, ih]

theorem findIndex_first (pre : Cart) (it : LineItem) (post : Cart) (id : Option String)
    (hit : some it.id = id) (hpre : ∀ x ∈ pre, some x.id ≠ id) :
    findIndex (pre ++ it :: post) id = some pre.length := by
  induction pre with
  | nil => simp [findIndex, hit]
  | cons a rest ih =>
    have ha : some a.id ≠ id := hpre a (List.mem_cons_self _ _)
    have hrest : ∀ x ∈ rest, some x.id ≠ id := fun x hx => hpre x (List.mem_cons_of_mem _ hx)
    simp [findIndex, ha, ih hrest]

theorem findIndex_split {cart : Cart} {id : Option String} {k : Nat}
    (h : findIndex cart id = some k) :
    ∃ pre it post, cart = pre ++ it :: post ∧ pre.length = k ∧ some it.id = id ∧
      ∀ x ∈ pre, some x.id ≠ id := by
  induction cart generalizing k with
  | nil => simp [findIndex] at h
  | cons a rest ih =>
    by_cases ha : some a.id = id
    · simp [findIndex, ha] at h
      exact ⟨[], a, rest, rfl, by simpa using h, ha, by simp⟩
    · simp only [findIndex, beq_iff_eq, ha, if_false, Option.map_eq_some'] at h
      obtain ⟨j, hj, hk⟩ := h
      obtain ⟨pre, it, post, hc, hl, hid, hpre⟩ := ih hj
      refine ⟨a :: pre, it, post, by simp [hc], by simp [hl, hk], hid, ?_⟩
      intro x hx
      rcases List.mem_cons.mp hx with rfl | hx
      · exact ha
      · exact hpre x hx

theorem updateAt_first (pre : Cart) (it : LineItem) (post : Cart) (f : LineItem → LineItem) :
    updateAt (pre ++ it :: post) pre.length f = pre ++ f it :: post := by
  induction pre with
  | nil => simp [updateAt]
  | cons a rest ih => simp [updateAt, ih]

theorem splice1_first (pre : Cart) (it : LineItem) (post : Cart) :
    splice1 (pre ++ it :: post) pre.length = pre ++ post := by
  induction pre with
  | nil => simp [splice1]
  | cons a rest ih =>
    simp only [splice1] at ih
    simp [splice1, ih]

/-! ## Lemmas on the branches -/

theorem guardPasses_iff (btn : Button) :
    guardPasses btn = true ↔
      (∃ i, btn.id = some i ∧ i ≠ "") ∧ (∃ n, btn.name = some n ∧ n ≠ "") ∧
        btn.price ≠ .nan ∧ btn.price ≠ .fin 0 := by
  obtain ⟨id, name, price⟩ := btn
  cases id <;> cases name <;> cases price <;>
    simp [guardPasses, truthyStr, JSNum.truthy, and_assoc]

theorem addToCart_of_guard {cart : Cart} {btn : Button} (h : guardPasses btn = true) :
    addToCart cart btn =
      match findIndex cart btn.id with
      | some k => some (updateAt cart k (fun existing =>
          { existing with quantity := incrementNumber existing.quantity }))
      | none => some (cart ++ [
          { id := btn.id.getD "", name := btn.name.getD "", price := jsonNumber btn.price,
            quantity := 1 }]) := by
  unfold guardPasses at h
  have h2 : (!truthyStr btn.id || !truthyStr btn.name || !btn.price.truthy) = false := by
    simpa using h
  simp only [addToCart, h2]
  rfl

theorem addToCart_existing (pre : Cart) (it : LineItem) (post : Cart) (btn : Button)
    (h : guardPasses btn = true) (hit : some it.id = btn.id)
    (hpre : ∀ x ∈ pre, some x.id ≠ btn.id) :
    addToCart (pre ++ it :: post) btn =
      some (pre ++ { it with quantity := incrementNumber it.quantity } :: post) := by
  rw [addToCart_of_guard h, findIndex_first pre it post btn.id hit hpre]
  simp only [updateAt_first]

theorem addToCart_new (cart : Cart) (btn : Button) (h : guardPasses btn = true)
    (hnew : ∀ x ∈ cart, some x.id ≠ btn.id) :
    addToCart cart btn = some (cart ++ [
      { id := btn.id.getD "", name := btn.name.getD "", price := jsonNumber btn.price,
        quantity := 1 }]) := by
  rw [addToCart_of_guard h, findIndex_eq_none.mpr hnew]

theorem qtyPlus_first (pre : Cart) (it : LineItem) (post : Cart) (id : Option String)
    (hit : some it.id = id) (hpre : ∀ x ∈ pre, some x.id ≠ id) :
    qtyPlus (pre ++ it :: post) id =
      pre ++ { it with quantity := incrementNumber it.quantity } :: post := by
  simp only [qtyPlus, findIndex_first pre it post id hit hpre, updateAt_first]

theorem qtyMinus_first (pre : Cart) (it : LineItem) (post : Cart) (id : Option String)
    (hit : some it.id = id) (hpre : ∀ x ∈ pre, some x.id ≠ id) :
    qtyMinus (pre ++ it :: post) id =
      pre ++ (if it.quantity > 1 then { it with quantity := decrementNumber it.quantity }
        else it) :: post := by
  simp only [qtyMinus, findIndex_first pre it post id hit hpre, updateAt_first]

theorem cartRemove_first (pre : Cart) (it : LineItem) (post : Cart) (id : Option String)
    (hit : some it.id = id) (hpre : ∀ x ∈ pre, some x.id ≠ id) :
    cartRemove (pre ++ it :: post) id = pre ++ post := by
  simp only [cartRemove, findIndex_first pre it post id hit hpre, splice1_first]

theorem qtyPlus_absent (cart : Cart) (id : Option String) (h : ∀ x ∈ cart, some x.id ≠ id) :
    qtyPlus cart id = cart := by
  simp only [qtyPlus, findIndex_eq_none.mpr h]

theorem qtyMinus_absent (cart : Cart) (id : Option String) (h : ∀ x ∈ cart, some x.id ≠ id) :
    qtyMinus cart id = cart := by
  simp only [qtyMinus, findIndex_eq_none.mpr h]

theorem cartRemove_absent (cart : Cart) (id : Option String) (h : ∀ x ∈ cart, some x.id ≠ id) :
    cartRemove cart id = cart := by
  simp only [cartRemove, findIndex_eq_none.mpr h]

/-- Either no item of the cart has the id, or the cart splits at the first item that has it. -/
theorem cart_cases (cart : Cart) (id : Option String) :
    (∀ x ∈ cart, some x.id ≠ id) ∨
      ∃ pre it post, cart = pre ++ it :: post ∧ some it.id = id ∧ ∀ x ∈ pre, some x.id ≠ id := by
  cases h : findIndex cart id with
  | none => exact Or.inl (findIndex_eq_none.mp h)
  | some k =>
    obtain ⟨pre, it, post, hc, _, hid, hpre⟩ := findIndex_split h
    exact Or.inr ⟨pre, it, post, hc, hid, hpre⟩

/-! ## Adding to the cart -/

/-- C1, counterexample: on the cart whose one item `sku1` has quantity `2^53`, `addToCart`
with id `sku1` saves the cart as it was: the double nearest to `2^53 + 1` is `2^53`, so the
quantity is not increased by 1. -/
theorem addToCart_quantity_two_pow_53_stays :
    addToCart [⟨"sku1", "Bar", some (2999 / 100), 2 ^ 53⟩]
        ⟨some "sku1", some "Bar", .fin (2999 / 100)⟩ =
      some [⟨"sku1", "Bar", some (2999 / 100), 2 ^ 53⟩] ∧
    addToCart [⟨"sku1", "Bar", some (2999 / 100), 2 ^ 53⟩]
        ⟨some "sku1", some "Bar", .fin (2999 / 100)⟩ ≠
      some [⟨"sku1", "Bar", some (2999 / 100), 2 ^ 53 + 1⟩] := by
  have hg : guardPasses ⟨some "sku1", some "Bar", .fin (2999 / 100)⟩ = true := by
    rw [guardPasses_iff]
    exact ⟨⟨"sku1", rfl, by decide⟩, ⟨"Bar", rfl, by decide⟩, by simp, by norm_num⟩
  have h : addToCart [⟨"sku1", "Bar", some (2999 / 100), 2 ^ 53⟩]
      ⟨some "sku1", some "Bar", .fin (2999 / 100)⟩ =
      some [⟨"sku1", "Bar", some (2999 / 100), 2 ^ 53⟩] := by
    have h0 : addToCart [⟨"sku1", "Bar", some (2999 / 100), 2 ^ 53⟩]
        ⟨some "sku1", some "Bar", .fin (2999 / 100)⟩ =
        some [⟨"sku1", "Bar", some (2999 / 100), incrementNumber (2 ^ 53)⟩] :=
      addToCart_existing [] ⟨"sku1", "Bar", some (2999 / 100), 2 ^ 53⟩ [] _ hg rfl (by simp)
    rw [incrementNumber_two_pow_53] at h0
    exact h0
  refine ⟨h, ?_⟩
  rw [h]
  simp

/-- C1, amended: for a cart `C` and an input with non-empty id `i`, non-empty name `n` and
finite non-zero price `q` (every positive finite price is one): if `C` has an item with id
`i`, `addToCart` saves `C` with the quantity `k` of the first such item replaced by the
double nearest to `k + 1`, which is exactly `k + 1` whenever `-2^53 ≤ k < 2^53`, its name
and price and all other items and the order left as they were; otherwise it saves `C` with
the item `(i, n, q, 1)` appended at the end.  Adding `("sku1", "Bar", 29.99)` to the empty
cart saves the cart with the one item `(sku1, Bar, 29.99, 1)`, and adding it again makes
the quantity 2. -/
theorem addToCart_increments_or_appends (C : Cart) (i n : String) (q : ℚ)
    (hi : i ≠ "") (hn : n ≠ "") (hq : q ≠ 0) :
    (∀ pre it post, C = pre ++ it :: post → it.id = i → (∀ x ∈ pre, x.id ≠ i) →
      addToCart C ⟨some i, some n, .fin q⟩ =
        some (pre ++ ⟨it.id, it.name, it.price, incrementNumber it.quantity⟩ :: post)) ∧
    (∀ pre it post, C = pre ++ it :: post → it.id = i → (∀ x ∈ pre, x.id ≠ i) →
      -2 ^ 53 ≤ it.quantity → it.quantity < 2 ^ 53 →
      addToCart C ⟨some i, some n, .fin q⟩ =
        some (pre ++ ⟨it.id, it.name, it.price, it.quantity + 1⟩ :: post)) ∧
    ((∀ x ∈ C, x.id ≠ i) →
      addToCart C ⟨some i, some n, .fin q⟩ = some (C ++ [⟨i, n, some q, 1⟩])) ∧
    addToCart [] ⟨some "sku1", some "Bar", .fin (2999 / 100)⟩ =
      some [⟨"sku1", "Bar", some (2999 / 100), 1⟩] ∧
    addToCart [⟨"sku1", "Bar", some (2999 / 100), 1⟩] ⟨some "sku1", some "Bar", .fin (2999 / 100)⟩ =
      some [⟨"sku1", "Bar", some (2999 / 100), 2⟩] := by
  have hg : guardPasses ⟨some i, some n, .fin q⟩ = true := by
    rw [guardPasses_iff]
    exact ⟨⟨i, rfl, hi⟩, ⟨n, rfl, hn⟩, by simp, by simpa using hq⟩
  have hg2 : guardPasses ⟨some "sku1", some "Bar", .fin (2999 / 100)⟩ = true := by
    rw [guardPasses_iff]
    exact ⟨⟨"sku1", rfl, by decide⟩, ⟨"Bar", rfl, by decide⟩, by simp, by norm_num⟩
  have hgen : ∀ pre it post, C = pre ++ it :: post → it.id = i → (∀ x ∈ pre, x.id ≠ i) →
      addToCart C ⟨some i, some n, .fin q⟩ =
        some (pre ++ ⟨it.id, it.name, it.price, incrementNumber it.quantity⟩ :: post) := by
    intro pre it post hC hit hpre
    subst hC
    exact addToCart_existing pre it post _ hg (by simp [hit]) (by simpa using hpre)
  refine ⟨hgen, ?_, ?_, ?_, ?_⟩
  · intro pre it post hC hit hpre h1 h2
    rw [hgen pre it post hC hit hpre, incrementNumber_exact it.quantity h1 h2]
  · intro hnew
    exact addToCart_new C _ hg (by simpa using hnew)
  · exact addToCart_new [] _ hg2 (by simp)
  · have h0 : addToCart [⟨"sku1", "Bar", some (2999 / 100), 1⟩]
        ⟨some "sku1", some "Bar", .fin (2999 / 100)⟩ =
        some [⟨"sku1", "Bar", some (2999 / 100), incrementNumber 1⟩] :=
      addToCart_existing [] ⟨"sku1", "Bar", some (2999 / 100), 1⟩ [] _ hg2 rfl (by simp)
    rw [incrementNumber_exact 1 (by norm_num) (by norm_num)] at h0
    exact h0

/-- Witness of C1 (amended) on the cart holding `(a, A, 3, 1)` then `(b, B, 2, 4)`, adding
`("b", "Other", 7)`: the second item gets quantity 5 and keeps its name and price. -/
theorem addToCart_increments_or_appends_witness :
    addToCart [⟨"a", "A", some 3, 1⟩, ⟨"b", "B", some 2, 4⟩] ⟨some "b", some "Other", .fin 7⟩ =
      some ([⟨"a", "A", some 3, 1⟩] ++ ⟨"b", "B", some 2, 4 + 1⟩ :: []) :=
  (addToCart_increments_or_appends [⟨"a", "A", some 3, 1⟩, ⟨"b", "B", some 2, 4⟩] "b" "Other" 7
    (by decide) (by decide) (by decide)).2.1 [⟨"a", "A", some 3, 1⟩] ⟨"b", "B", some 2, 4⟩ []
    rfl rfl (by simp) (by decide) (by decide)

/-- C2, counterexample: with the cart empty, `addToCart` with id `sku1`, name `Bar` and the
negative price `-5` saves a cart with one item, and so does the price `Infinity` (stored as
`null`): the stored cart is not the cart before. -/
theorem addToCart_negative_price_saved :
    addToCart [] ⟨some "sku1", some "Bar", .fin (-5)⟩ = some [⟨"sku1", "Bar", some (-5), 1⟩] ∧
    storeAfterAdd [] ⟨some "sku1", some "Bar", .fin (-5)⟩ ≠ [] ∧
    addToCart [] ⟨some "sku1", some "Bar", .posInf⟩ = some [⟨"sku1", "Bar", none, 1⟩] ∧
    storeAfterAdd [] ⟨some "sku1", some "Bar", .posInf⟩ ≠ [] := by
  have h1 : addToCart [] ⟨some "sku1", some "Bar", .fin (-5)⟩ =
      some [⟨"sku1", "Bar", some (-5), 1⟩] :=
    addToCart_new [] _ (by rw [guardPasses_iff]; simp) (by simp)
  have h2 : addToCart [] ⟨some "sku1", some "Bar", .posInf⟩ =
      some [⟨"sku1", "Bar", none, 1⟩] :=
    addToCart_new [] _ (by rw [guardPasses_iff]; simp) (by simp)
  refine ⟨h1, ?_, h2, ?_⟩
  · simp [storeAfterAdd, h1]
  · simp [storeAfterAdd, h2]

/-- C2, amended: `addToCart` saves nothing exactly when the id is missing or empty, the name
is missing or empty, or the price is `0` or `NaN`; in each of these cases the stored cart
after the call is the cart before.  For every other input, negative and infinite prices
included, a cart is saved, and it differs from the cart before when the quantities of the
cart are in the range `-2^53 ≤ k < 2^53` where `++` is exact. -/
theorem addToCart_noop_iff (C : Cart) (btn : Button) :
    (addToCart C btn = none ↔
      (btn.id = none ∨ btn.id = some "" ∨ btn.name = none ∨ btn.name = some "" ∨
        btn.price = .fin 0 ∨ btn.price = .nan)) ∧
    (addToCart C btn = none → storeAfterAdd C btn = C) ∧
    (addToCart C btn ≠ none → (∀ it ∈ C, -2 ^ 53 ≤ it.quantity ∧ it.quantity < 2 ^ 53) →
      storeAfterAdd C btn ≠ C) := by
  have hnone : addToCart C btn = none ↔ guardPasses btn = false := by
    constructor
    · intro h
      by_contra hg
      have hg2 : guardPasses btn = true := by simpa using hg
      rw [addToCart_of_guard hg2] at h
      cases hf : findIndex C btn.id <;> simp [hf] at h
    · intro hg
      unfold guardPasses at hg
      have h2 : (!truthyStr btn.id || !truthyStr btn.name || !btn.price.truthy) = true := by
        cases hb : (!truthyStr btn.id || !truthyStr btn.name || !btn.price.truthy)
        · rw [hb] at hg
          exact absurd hg (by decide)
        · rfl
      simp only [addToCart, h2, if_true]
  refine ⟨?_, ?_, ?_⟩
  · rw [hnone]
    obtain ⟨id, name, price⟩ := btn
    cases id <;> cases name <;> cases price <;>
      simp [guardPasses, truthyStr, JSNum.truthy] <;> tauto
  · intro h
    simp [storeAfterAdd, h]
  · intro h hrange
    have hg : guardPasses btn = true := by
      by_contra hg
      exact h (hnone.mpr (by simpa using hg))
    rcases cart_cases C btn.id with hnew | ⟨pre, it, post, hC, hit, hpre⟩
    · rw [storeAfterAdd, addToCart_new C btn hg hnew]
      intro hEq
      have := congrArg List.length hEq
      simp at this
    · subst hC
      obtain ⟨h1, h2⟩ := hrange it (by simp)
      rw [storeAfterAdd, addToCart_existing pre it post btn hg hit hpre,
        incrementNumber_exact it.quantity h1 h2]
      intro hEq
      simp only [Option.getD_some, List.append_cancel_left_eq, List.cons.injEq, and_true] at hEq
      have := congrArg LineItem.quantity hEq
      simp at this

/-- Witness of C2 (amended) on the cart holding `(a, A, 3, 1)` with the price `NaN`. -/
theorem addToCart_noop_iff_witness :
    storeAfterAdd [⟨"a", "A", some 3, 1⟩] ⟨some "a", some "A", .nan⟩ = [⟨"a", "A", some 3, 1⟩] :=
  (addToCart_noop_iff [⟨"a", "A", some 3, 1⟩] ⟨some "a", some "A", .nan⟩).2.1 rfl

/-! ## Changing quantities and removing -/

/-- C3, counterexample: on the cart whose one item `sku1` has quantity `2^53 + 2`, the
`qty-minus` branch saves quantity `2^53`: the double nearest to `2^53 + 1` is `2^53`, so the
quantity is lowered by 2, not by 1. -/
theorem qtyMinus_above_two_pow_53_drops_two :
    handleCartClick [⟨"sku1", "Bar", some (2999 / 100), 2 ^ 53 + 2⟩]
        ⟨["qty-minus"], some "sku1"⟩ =
      some [⟨"sku1", "Bar", some (2999 / 100), 2 ^ 53⟩] ∧
    qtyMinus [⟨"sku1", "Bar", some (2999 / 100), 2 ^ 53 + 2⟩] (some "sku1") ≠
      [⟨"sku1", "Bar", some (2999 / 100), 2 ^ 53 + 2 - 1⟩] := by
  have h : qtyMinus [⟨"sku1", "Bar", some (2999 / 100), 2 ^ 53 + 2⟩] (some "sku1") =
      [⟨"sku1", "Bar", some (2999 / 100), 2 ^ 53⟩] := by
    have h0 : qtyMinus [⟨"sku1", "Bar", some (2999 / 100), 2 ^ 53 + 2⟩] (some "sku1") =
        [if (2 ^ 53 + 2 : ℤ) > 1 then
          ⟨"sku1", "Bar", some (2999 / 100), decrementNumber (2 ^ 53 + 2)⟩
          else ⟨"sku1", "Bar", some (2999 / 100), 2 ^ 53 + 2⟩] :=
      qtyMinus_first [] ⟨"sku1", "Bar", some (2999 / 100), 2 ^ 53 + 2⟩ [] (some "sku1") rfl
        (by simp)
    rw [if_pos (by norm_num), decrementNumber_two_pow_53_add_two] at h0
    exact h0
  have hh : handleCartClick [⟨"sku1", "Bar", some (2999 / 100), 2 ^ 53 + 2⟩]
      ⟨["qty-minus"], some "sku1"⟩ =
      some (qtyMinus [⟨"sku1", "Bar", some (2999 / 100), 2 ^ 53 + 2⟩] (some "sku1")) := by
    simp [handleCartClick]
  refine ⟨?_, ?_⟩
  · rw [hh, h]
  · rw [h]
    simp

/-- C3, amended: for a cart `C` and an id `i`, the `qty-minus` branch of `handleCartClick`
saves `C` with the quantity `k` of the first item with id `i` replaced by the double
nearest to `k - 1` when `k` is above 1, which is exactly `k - 1` whenever `k ≤ 2^53`, and `C`
itself when that quantity is 1 (the item stays) or when no item has id `i`.  The length, the
order, and the ids, names and prices of all items are those of `C`. -/
theorem qtyMinus_floors_at_one (C : Cart) (i : Option String) :
    handleCartClick C ⟨["qty-minus"], i⟩ = some (qtyMinus C i) ∧
    (∀ pre it post, C = pre ++ it :: post → some it.id = i → (∀ x ∈ pre, some x.id ≠ i) →
      (1 < it.quantity →
        qtyMinus C i =
          pre ++ ⟨it.id, it.name, it.price, decrementNumber it.quantity⟩ :: post) ∧
      (1 < it.quantity → it.quantity ≤ 2 ^ 53 →
        qtyMinus C i = pre ++ ⟨it.id, it.name, it.price, it.quantity - 1⟩ :: post) ∧
      (it.quantity = 1 → qtyMinus C i = C)) ∧
    ((∀ x ∈ C, some x.id ≠ i) → qtyMinus C i = C) ∧
    (qtyMinus C i).length = C.length ∧
    (qtyMinus C i).map (fun x => (x.id, x.name, x.price)) =
      C.map (fun x => (x.id, x.name, x.price)) := by
  refine ⟨by simp [handleCartClick], ?_, qtyMinus_absent C i, ?_, ?_⟩
  · intro pre it post hC hit hpre
    subst hC
    rw [qtyMinus_first pre it post i hit hpre]
    refine ⟨?_, ?_, ?_⟩
    · intro hq
      simp [hq]
    · intro hq hle
      rw [decrementNumber_exact it.quantity (by omega) hle]
      simp [hq]
    · intro hq
      simp [hq]
  · rcases cart_cases C i with hnew | ⟨pre, it, post, hC, hit, hpre⟩
    · rw [qtyMinus_absent C i hnew]
    · subst hC
      rw [qtyMinus_first pre it post i hit hpre]
      simp
  · rcases cart_cases C i with hnew | ⟨pre, it, post, hC, hit, hpre⟩
    · rw [qtyMinus_absent C i hnew]
    · subst hC
      rw [qtyMinus_first pre it post i hit hpre]
      by_cases hq : it.quantity > 1 <;> simp [hq]

/-- Witness of C3 (amended) on the cart holding `(a, A, 3, 1)` then `(b, B, 2, 4)` with id
`b`: the quantity 4 becomes 3. -/
theorem qtyMinus_floors_at_one_witness :
    qtyMinus [⟨"a", "A", some 3, 1⟩, ⟨"b", "B", some 2, 4⟩] (some "b") =
      [⟨"a", "A", some 3, 1⟩] ++ ⟨"b", "B", some 2, 4 - 1⟩ :: [] :=
  ((qtyMinus_floors_at_one [⟨"a", "A", some 3, 1⟩, ⟨"b", "B", some 2, 4⟩] (some "b")).2.1
    [⟨"a", "A", some 3, 1⟩] ⟨"b", "B", some 2, 4⟩ [] rfl rfl (by simp)).2.1 (by decide)
    (by decide)

theorem wellFormed_update (pre : Cart) (it new : LineItem) (post : Cart)
    (h : WellFormed (pre ++ it :: post)) (hid : new.id = it.id) (hq : 1 ≤ new.quantity) :
    WellFormed (pre ++ new :: post) := by
  obtain ⟨hnd, hqs⟩ := h
  constructor
  · simpa [hid] using hnd
  · intro x hx
    simp only [List.mem_append, List.mem_cons] at hx
    rcases hx with hx | rfl | hx
    · exact hqs x (by simp [hx])
    · exact hq
    · exact hqs x (by simp [hx])

theorem wellFormed_remove (pre : Cart) (it : LineItem) (post : Cart)
    (h : WellFormed (pre ++ it :: post)) : WellFormed (pre ++ post) := by
  obtain ⟨hnd, hqs⟩ := h
  have hsub : List.Sublist (pre ++ post) (pre ++ it :: post) :=
    List.Sublist.append_left (List.sublist_cons_self it post) pre
  constructor
  · exact hnd.sublist (hsub.map _)
  · intro x hx
    exact hqs x (hsub.subset hx)

theorem wellFormed_push (cart : Cart) (new : LineItem) (h : WellFormed cart)
    (hid : ∀ x ∈ cart, x.id ≠ new.id) (hq : 1 ≤ new.quantity) :
    WellFormed (cart ++ [new]) := by
  obtain ⟨hnd, hqs⟩ := h
  constructor
  · rw [List.map_append, List.nodup_append]
    refine ⟨hnd, by simp, ?_⟩
    intro a ha hb
    simp only [List.map_cons, List.map_nil, List.mem_singleton] at hb
    obtain ⟨x, hx, hxa⟩ := List.mem_map.mp ha
    exact hid x hx (by rw [hxa, hb])
  · intro x hx
    simp only [List.mem_append, List.mem_singleton] at hx
    rcases hx with hx | rfl
    · exact hqs x hx
    · exact hq

theorem wellFormed_qtyPlus (C : Cart) (id : Option String) (h : WellFormed C) :
    WellFormed (qtyPlus C id) := by
  rcases cart_cases C id with hnew | ⟨pre, it, post, hC, hit, hpre⟩
  · rwa [qtyPlus_absent C id hnew]
  · subst hC
    rw [qtyPlus_first pre it post id hit hpre]
    have hq : 1 ≤ it.quantity := h.2 it (by simp)
    exact wellFormed_update pre it _ post h rfl (one_le_incrementNumber it.quantity hq)

theorem wellFormed_qtyMinus (C : Cart) (id : Option String) (h : WellFormed C) :
    WellFormed (qtyMinus C id) := by
  rcases cart_cases C id with hnew | ⟨pre, it, post, hC, hit, hpre⟩
  · rwa [qtyMinus_absent C id hnew]
  · subst hC
    rw [qtyMinus_first pre it post id hit hpre]
    have hq : 1 ≤ it.quantity := h.2 it (by simp)
    by_cases hgt : it.quantity > 1
    · simp only [hgt, if_true]
      exact wellFormed_update pre it _ post h rfl (one_le_decrementNumber it.quantity hgt)
    · simpa only [hgt, if_false] using h

theorem wellFormed_cartRemove (C : Cart) (id : Option String) (h : WellFormed C) :
    WellFormed (cartRemove C id) := by
  rcases cart_cases C id with hnew | ⟨pre, it, post, hC, hit, hpre⟩
  · rwa [cartRemove_absent C id hnew]
  · subst hC
    rw [cartRemove_first pre it post id hit hpre]
    exact wellFormed_remove pre it post h

theorem wellFormed_addToCart (C : Cart) (btn : Button) (h : WellFormed C) :
    WellFormed (storeAfterAdd C btn) := by
  by_cases hg : guardPasses btn = true
  · rcases cart_cases C btn.id with hnew | ⟨pre, it, post, hC, hit, hpre⟩
    · rw [storeAfterAdd, addToCart_new C btn hg hnew]
      refine wellFormed_push C _ h ?_ (by simp)
      obtain ⟨⟨i, hi, _⟩, _⟩ := (guardPasses_iff btn).mp hg
      intro x hx hEq
      apply hnew x hx
      simp only [hi, Option.getD_some] at hEq ⊢
      rw [hEq]
    · subst hC
      rw [storeAfterAdd, addToCart_existing pre it post btn hg hit hpre]
      have hq : 1 ≤ it.quantity := h.2 it (by simp)
      exact wellFormed_update pre it _ post h rfl (one_le_incrementNumber it.quantity hq)
  · have hnone : addToCart C btn = none := by
      have h2 : (!truthyStr btn.id || !truthyStr btn.name || !btn.price.truthy) = true := by
        cases hb : (!truthyStr btn.id || !truthyStr btn.name || !btn.price.truthy)
        · exact absurd (by simp [guardPasses, hb]) hg
        · rfl
      simp only [addToCart, h2, if_true]
    simpa [storeAfterAdd, hnone] using h

theorem wellFormed_handleCartClick (C : Cart) (t : Target) (h : WellFormed C) :
    WellFormed (storeAfterClick C t) := by
  have h1 : WellFormed (if t.classList.contains "qty-plus" then qtyPlus C t.id else C) := by
    split
    · exact wellFormed_qtyPlus C t.id h
    · exact h
  have h2 := wellFormed_qtyMinus _ t.id h1
  have h2b : WellFormed (if t.classList.contains "qty-minus" then
      qtyMinus (if t.classList.contains "qty-plus" then qtyPlus C t.id else C) t.id
      else (if t.classList.contains "qty-plus" then qtyPlus C t.id else C)) := by
    split
    · exact h2
    · exact h1
  have h3 := wellFormed_cartRemove _ t.id h2b
  unfold storeAfterClick handleCartClick
  simp only
  split
  · simp only [Option.getD_some]
    split
    · exact h3
    · exact h2b
  · simpa using h

/-- C4: the predicate "no two items share an id and every quantity is an integer at least
1" holds for the empty cart, and when it holds for a cart it holds for the cart stored after
`addToCart` with any input, after the `qty-plus`, `qty-minus` and `cart-remove-btn` branches
of `handleCartClick` with any id, and after `handleCartClick` on any target. -/
theorem wellFormed_invariant :
    WellFormed [] ∧
    ∀ C : Cart, WellFormed C →
      (∀ btn, WellFormed (storeAfterAdd C btn)) ∧
      (∀ id, WellFormed (qtyPlus C id) ∧ WellFormed (qtyMinus C id) ∧
        WellFormed (cartRemove C id)) ∧
      (∀ t, WellFormed (storeAfterClick C t)) := by
  refine ⟨by simp [WellFormed], ?_⟩
  intro C h
  exact ⟨fun btn => wellFormed_addToCart C btn h,
    fun id => ⟨wellFormed_qtyPlus C id h, wellFormed_qtyMinus C id h,
      wellFormed_cartRemove C id h⟩,
    fun t => wellFormed_handleCartClick C t h⟩

/-- Witness of C4 on the cart holding `(a, A, 3, 1)` then `(b, B, 2, 4)`, adding an item
with the new id `c`. -/
theorem wellFormed_invariant_witness :
    WellFormed [⟨"a", "A", some 3, 1⟩, ⟨"b", "B", some 2, 4⟩] ∧
    WellFormed (storeAfterAdd [⟨"a", "A", some 3, 1⟩, ⟨"b", "B", some 2, 4⟩]
      ⟨some "c", some "C", .fin 5⟩) :=
  ⟨by decide,
    (wellFormed_invariant.2 [⟨"a", "A", some 3, 1⟩, ⟨"b", "B", some 2, 4⟩] (by decide)).1
      ⟨some "c", some "C", .fin 5⟩⟩

/-- C6: for a cart `C` and an input that passes the guard of `addToCart` and whose id no
item of `C` has, `addToCart` followed by the `cart-remove-btn` branch of `handleCartClick`
with the same id saves a cart equal to `C`. -/
theorem add_then_remove_new (C : Cart) (btn : Button) (hg : guardPasses btn = true)
    (hnew : ∀ x ∈ C, some x.id ≠ btn.id) :
    (addToCart C btn).bind (fun c => handleCartClick c ⟨["cart-remove-btn"], btn.id⟩) =
      some C := by
  obtain ⟨⟨i, hi, _⟩, _⟩ := (guardPasses_iff btn).mp hg
  rw [addToCart_new C btn hg hnew]
  have hrem := cartRemove_first C
    { id := btn.id.getD "", name := btn.name.getD "", price := jsonNumber btn.price,
      quantity := 1 } [] btn.id (by simp [hi]) hnew
  simp only [Option.some_bind, handleCartClick]
  simp [hrem]

/-- Witness of C6 on the cart holding `(a, A, 3, 2)`, adding and removing `("b", "B", 7)`. -/
theorem add_then_remove_new_witness :
    (addToCart [⟨"a", "A", some 3, 2⟩] ⟨some "b", some "B", .fin 7⟩).bind
      (fun c => handleCartClick c ⟨["cart-remove-btn"], some "b"⟩) =
      some [⟨"a", "A", some 3, 2⟩] :=
  add_then_remove_new [⟨"a", "A", some 3, 2⟩] ⟨some "b", some "B", .fin 7⟩
    (by rw [guardPasses_iff]; simp) (by simp)

/-! ## Totals -/

theorem add_fin_fin (a b : ℚ) : (JSNum.fin a).add (.fin b) = roundDouble (a + b) := rfl

theorem cartTotal_append (A B : Cart) :
    cartTotal (A ++ B) =
      B.foldl
        (fun sum item => sum.add (roundDouble (priceValue item.price * (item.quantity : ℚ))))
        (cartTotal A) := by
  simp [cartTotal, List.foldl_append]

theorem foldl_total_exact (cart : Cart) (acc : ℚ) (h : NoRounding acc cart) :
    cart.foldl
        (fun (sum : JSNum) (item : LineItem) =>
          sum.add (roundDouble (priceValue item.price * (item.quantity : ℚ))))
        (JSNum.fin acc) =
      JSNum.fin (acc + exactTotal cart) := by
  induction cart generalizing acc with
  | nil => simp [exactTotal]
  | cons a rest ih =>
    obtain ⟨h1, h2, h3⟩ := h
    unfold Representable at h1 h2
    simp only [List.foldl_cons]
    rw [h1, add_fin_fin, h2, ih _ h3]
    simp [exactTotal, add_assoc]

theorem cartTotal_exact (C : Cart) (h : NoRounding 0 C) : cartTotal C = .fin (exactTotal C) := by
  have := foldl_total_exact C 0 h
  simpa [cartTotal] using this

theorem noRounding_of_int (cart : Cart) (acc : ℤ)
    (hint : ∀ it ∈ cart, ∃ p : ℤ, priceValue it.price = p)
    (hb : |(acc : ℚ)| + absTotal cart ≤ 2 ^ 53) : NoRounding acc cart := by
  induction cart generalizing acc with
  | nil => trivial
  | cons a rest ih =>
    obtain ⟨p, hp⟩ := hint a (List.mem_cons_self _ _)
    have hrest : ∀ it ∈ rest, ∃ p : ℤ, priceValue it.price = p := fun it h =>
      hint it (List.mem_cons_of_mem _ h)
    have hprod : priceValue a.price * (a.quantity : ℚ) = ((p * a.quantity : ℤ) : ℚ) := by
      rw [hp]
      push_cast
      ring
    have habs : absTotal (a :: rest) =
        |((p * a.quantity : ℤ) : ℚ)| + absTotal rest := by
      simp [absTotal, hprod]
    have hnn : 0 ≤ absTotal rest :=
      List.sum_nonneg (by
        intro x hx
        obtain ⟨y, _, rfl⟩ := List.mem_map.mp hx
        exact abs_nonneg _)
    rw [habs] at hb
    have hacc : 0 ≤ |(acc : ℚ)| := abs_nonneg _
    have hn : 0 ≤ |((p * a.quantity : ℤ) : ℚ)| := abs_nonneg _
    have toInt : ∀ n : ℤ, |(n : ℚ)| ≤ 2 ^ 53 → |n| ≤ 2 ^ 53 := by
      intro n h
      have h2 : ((|n| : ℤ) : ℚ) ≤ ((2 ^ 53 : ℤ) : ℚ) := by
        rw [Int.cast_abs]
        push_cast
        exact h
      exact Int.cast_le.mp h2
    refine ⟨?_, ?_, ?_⟩
    · rw [hprod]
      exact representable_int _ (toInt _ (by linarith)) _ rfl
    · rw [hprod]
      refine representable_int (acc + p * a.quantity) (toInt _ ?_) _ (by push_cast; ring)
      have := abs_add (acc : ℚ) ((p * a.quantity : ℤ) : ℚ)
      push_cast at this hb ⊢
      linarith
    · have hacc2 : (acc : ℚ) + priceValue a.price * (a.quantity : ℚ) =
          ((acc + p * a.quantity : ℤ) : ℚ) := by
        rw [hprod]
        push_cast
        ring
      rw [hacc2]
      apply ih (acc + p * a.quantity) hrest
      have := abs_add (acc : ℚ) ((p * a.quantity : ℤ) : ℚ)
      push_cast at this hb ⊢
      linarith

theorem exactTotal_append (A B : Cart) : exactTotal (A ++ B) = exactTotal A + exactTotal B := by
  simp [exactTotal]

theorem exactTotal_update (pre : Cart) (it : LineItem) (post : Cart) (k : ℤ) :
    exactTotal (pre ++ { it with quantity := k } :: post) =
      exactTotal (pre ++ it :: post) + priceValue it.price * ((k : ℚ) - it.quantity) := by
  simp only [exactTotal, List.map_append, List.sum_append, List.map_cons, List.sum_cons]
  ring

theorem cartTotal_two (x y : LineItem) :
    cartTotal [x, y] =
      ((JSNum.fin 0).add (roundDouble (priceValue x.price * (x.quantity : ℚ)))).add
        (roundDouble (priceValue y.price * (y.quantity : ℚ))) := rfl

/-- C7, counterexample: the double nearest to `1/10` is `3602879701896397 / 2^55`; for the
cart with the one item of price `0.1` (that double) and quantity 3, `cartTotal` is the double
`5404319552844596 / 2^54` (printed `0.30000000000000004`), not the sum of price times
quantity; and for the two items of price 1 with quantities `2^53` and 1 it is `2^53`, not
`2^53 + 1`. -/
theorem cartTotal_is_rounded :
    roundDouble (1 / 10) = .fin (3602879701896397 / 36028797018963968) ∧
    cartTotal [⟨"sku1", "Bar", some (3602879701896397 / 36028797018963968), 3⟩] =
      .fin (5404319552844596 / 18014398509481984) ∧
    cartTotal [⟨"sku1", "Bar", some (3602879701896397 / 36028797018963968), 3⟩] ≠
      .fin ((([⟨"sku1", "Bar", some (3602879701896397 / 36028797018963968), 3⟩] :
        Cart).map (fun item => priceValue item.price * (item.quantity : ℚ))).sum) ∧
    cartTotal [⟨"a", "A", some 1, 2 ^ 53⟩, ⟨"b", "B", some 1, 1⟩] = .fin (2 ^ 53) ∧
    cartTotal [⟨"a", "A", some 1, 2 ^ 53⟩, ⟨"b", "B", some 1, 1⟩] ≠
      .fin ((([⟨"a", "A", some 1, 2 ^ 53⟩, ⟨"b", "B", some 1, 1⟩] :
        Cart).map (fun item => priceValue item.price * (item.quantity : ℚ))).sum) := by
  have hprod : roundDouble (3602879701896397 / 36028797018963968 * (((3 : ℤ)) : ℚ)) =
      .fin (5404319552844596 / 18014398509481984) := by
    rw [show (3602879701896397 / 36028797018963968 * (((3 : ℤ)) : ℚ) : ℚ) =
      3602879701896397 / 36028797018963968 * 3 by norm_num]
    exact roundDouble_of_nearest nearestDouble_tenth_times_three
      (by rw [abs_of_pos (by norm_num)]; norm_num)
  have hsum : roundDouble (0 + 5404319552844596 / 18014398509481984) =
      .fin (5404319552844596 / 18014398509481984) := by
    have h := representable_exact 5404319552844596 (-54) (by norm_num) (by norm_num)
      (by rw [abs_of_pos (by norm_num)]; norm_num)
    unfold Representable at h
    rw [show (0 + 5404319552844596 / 18014398509481984 : ℚ) =
      ((5404319552844596 : ℤ) : ℚ) * 2 ^ (-54 : ℤ) by norm_num, h]
    norm_num
  have h1 : cartTotal [⟨"sku1", "Bar", some (3602879701896397 / 36028797018963968), 3⟩] =
      .fin (5404319552844596 / 18014398509481984) := by
    simp only [cartTotal, List.foldl_cons, List.foldl_nil, priceValue]
    rw [hprod, add_fin_fin, hsum]
  have hp1 : roundDouble (1 * (((2 ^ 53 : ℤ)) : ℚ)) = .fin (2 ^ 53) := by
    have h := representable_int (2 ^ 53) (by norm_num) (1 * (((2 ^ 53 : ℤ)) : ℚ)) (by norm_num)
    unfold Representable at h
    rw [h]
    norm_num
  have hs1 : roundDouble (0 + 2 ^ 53) = .fin (2 ^ 53) := by
    have h := representable_int (2 ^ 53) (by norm_num) (0 + 2 ^ 53) (by norm_num)
    unfold Representable at h
    rw [h]
    norm_num
  have hp2 : roundDouble (1 * (((1 : ℤ)) : ℚ)) = .fin 1 := by
    have h := representable_int 1 (by norm_num) (1 * (((1 : ℤ)) : ℚ)) (by norm_num)
    unfold Representable at h
    rw [h]
    norm_num
  have hs2 : roundDouble (2 ^ 53 + 1) = .fin (2 ^ 53) :=
    roundDouble_of_nearest nearestDouble_two_pow_53_add_one
      (by rw [abs_of_pos (by norm_num)]; norm_num)
  have h2 : cartTotal [⟨"a", "A", some 1, 2 ^ 53⟩, ⟨"b", "B", some 1, 1⟩] = .fin (2 ^ 53) := by
    rw [cartTotal_two]
    simp only [priceValue]
    rw [hp1, add_fin_fin, hs1, hp2, add_fin_fin, hs2]
  refine ⟨roundDouble_of_nearest nearestDouble_tenth
    (by rw [abs_of_pos (by norm_num)]; norm_num), h1, ?_, h2, ?_⟩
  · rw [h1]
    simp only [List.map_cons, List.map_nil, List.sum_cons, List.sum_nil, priceValue, ne_eq,
      JSNum.fin.injEq]
    norm_num
  · rw [h2]
    simp only [List.map_cons, List.map_nil, List.sum_cons, List.sum_nil, priceValue, ne_eq,
      JSNum.fin.injEq]
    norm_num

/-- C7, amended: `cartTotal(C)` is the left-to-right sum of price times quantity in double
arithmetic, every product and every partial sum rounded to the nearest double: it is `0`
for the empty cart, it is computed from `C` alone, and on a concatenation it continues
from the total of the first cart through the items of the second.  Whenever no product and
no partial sum is rounded it equals the exact sum over the items of price times quantity;
that is so when the prices are integers and the magnitudes of the products add up to at
most `2^53`, so the total of the cart `(3, 1)`, `(2, 4)` is 11, and a `null` price counts as
0.  In exact arithmetic the sum of a
concatenation is the sum of the two sums, and after the quantity `k` of the first item with
a given id is incremented, for `-2^53 ≤ k < 2^53`, by the `qty-plus` branch or by
`addToCart` on an id already in the cart, the sum is the previous sum plus the price of
that item. -/
theorem cartTotal_is_sum :
    cartTotal [] = .fin 0 ∧
    (∀ A B : Cart, cartTotal (A ++ B) =
      B.foldl
        (fun sum item => sum.add (roundDouble (priceValue item.price * (item.quantity : ℚ))))
        (cartTotal A)) ∧
    (∀ C : Cart, NoRounding 0 C → cartTotal C = .fin (exactTotal C)) ∧
    (∀ C : Cart, (∀ it ∈ C, ∃ p : ℤ, priceValue it.price = p) → absTotal C ≤ 2 ^ 53 →
      cartTotal C = .fin (exactTotal C)) ∧
    cartTotal [⟨"a", "A", some 3, 1⟩, ⟨"b", "B", some 2, 4⟩] = .fin 11 ∧
    cartTotal [⟨"n", "N", none, 5⟩, ⟨"b", "B", some 2, 4⟩] = .fin 8 ∧
    (∀ A B : Cart, exactTotal (A ++ B) = exactTotal A + exactTotal B) ∧
    (∀ (pre : Cart) (it : LineItem) (post : Cart) (id : Option String),
      some it.id = id → (∀ x ∈ pre, some x.id ≠ id) →
      -2 ^ 53 ≤ it.quantity → it.quantity < 2 ^ 53 →
      exactTotal (qtyPlus (pre ++ it :: post) id) =
        exactTotal (pre ++ it :: post) + priceValue it.price) ∧
    (∀ (pre : Cart) (it : LineItem) (post : Cart) (btn : Button),
      guardPasses btn = true → some it.id = btn.id → (∀ x ∈ pre, some x.id ≠ btn.id) →
      -2 ^ 53 ≤ it.quantity → it.quantity < 2 ^ 53 →
      exactTotal (storeAfterAdd (pre ++ it :: post) btn) =
        exactTotal (pre ++ it :: post) + priceValue it.price) := by
  refine ⟨rfl, cartTotal_append, cartTotal_exact, ?_, ?_, ?_, exactTotal_append, ?_, ?_⟩
  · intro C hint hb
    apply cartTotal_exact
    have h := noRounding_of_int C 0 hint (by simpa using hb)
    simpa using h
  · rw [cartTotal_exact]
    · norm_num [exactTotal, priceValue]
    · simp only [NoRounding, priceValue, and_true]
      exact ⟨representable_int 3 (by norm_num) _ (by norm_num),
        representable_int 3 (by norm_num) _ (by norm_num),
        representable_int 8 (by norm_num) _ (by norm_num),
        representable_int 11 (by norm_num) _ (by norm_num)⟩
  · rw [cartTotal_exact]
    · norm_num [exactTotal, priceValue]
    · simp only [NoRounding, priceValue, and_true]
      exact ⟨representable_int 0 (by norm_num) _ (by norm_num),
        representable_int 0 (by norm_num) _ (by norm_num),
        representable_int 8 (by norm_num) _ (by norm_num),
        representable_int 8 (by norm_num) _ (by norm_num)⟩
  · intro pre it post id hit hpre h1 h2
    rw [qtyPlus_first pre it post id hit hpre, exactTotal_update,
      incrementNumber_exact it.quantity h1 h2]
    push_cast
    ring
  · intro pre it post btn hg hit hpre h1 h2
    rw [storeAfterAdd, addToCart_existing pre it post btn hg hit hpre, Option.getD_some,
      exactTotal_update, incrementNumber_exact it.quantity h1 h2]
    push_cast
    ring

/-- Witness of C7 (amended) on the cart holding `(a, A, 3, 1)` then `(b, B, 2, 4)`: nothing
is rounded and the total is 11. -/
theorem cartTotal_is_sum_witness :
    NoRounding 0 [⟨"a", "A", some 3, 1⟩, ⟨"b", "B", some 2, 4⟩] ∧
    cartTotal [⟨"a", "A", some 3, 1⟩, ⟨"b", "B", some 2, 4⟩] = .fin 11 := by
  have h : NoRounding 0 [⟨"a", "A", some 3, 1⟩, ⟨"b", "B", some 2, 4⟩] := by
    simp only [NoRounding, priceValue, and_true]
    exact ⟨representable_int 3 (by norm_num) _ (by norm_num),
      representable_int 3 (by norm_num) _ (by norm_num),
      representable_int 8 (by norm_num) _ (by norm_num),
      representable_int 11 (by norm_num) _ (by norm_num)⟩
  refine ⟨h, ?_⟩
  rw [cartTotal_is_sum.2.2.1 [⟨"a", "A", some 3, 1⟩, ⟨"b", "B", some 2, 4⟩] h]
  norm_num [exactTotal, priceValue]

/-! ## Loading the cart -/

theorem isLineItem_encodeItem (it : LineItem) : isLineItem (encodeItem it) = true := by
  obtain ⟨id, name, price, quantity⟩ := it
  cases price <;> simp [isLineItem, encodeItem, encodePrice, isPriceValue, List.lookup]

theorem isCartValue_encodeCart (C : Cart) : isCartValue (encodeCart C) = true := by
  simp [isCartValue, encodeCart, isLineItem_encodeItem]

/-- C5, counterexample: when the stored text parses to the object `{"a": 1}`, to the number
`5`, to the string `"x"` or to the array `[1]`, `loadCart` returns that value, which is
neither the empty array nor a sequence of line items. -/
theorem loadCart_returns_invalid_content :
    loadCart (.json (.obj [("a", .num (.fin 1))])) = .obj [("a", .num (.fin 1))] ∧
    loadCart (.json (.obj [("a", .num (.fin 1))])) ≠ .arr [] ∧
    isCartValue (loadCart (.json (.obj [("a", .num (.fin 1))]))) = false ∧
    loadCart (.json (.num (.fin 5))) = .num (.fin 5) ∧
    isCartValue (loadCart (.json (.num (.fin 5)))) = false ∧
    loadCart (.json (.str "x")) = .str "x" ∧
    isCartValue (loadCart (.json (.str "x"))) = false ∧
    loadCart (.json (.arr [.num (.fin 1)])) = .arr [.num (.fin 1)] ∧
    isCartValue (loadCart (.json (.arr [.num (.fin 1)]))) = false := by
  have h1 : loadCart (.json (.obj [("a", .num (.fin 1))])) = .obj [("a", .num (.fin 1))] := by
    simp [loadCart, jsonParseItem, truthy]
  have h2 : loadCart (.json (.num (.fin 5))) = .num (.fin 5) := by
    simp [loadCart, jsonParseItem, truthy, JSNum.truthy]
  have h3 : loadCart (.json (.str "x")) = .str "x" := by
    simp [loadCart, jsonParseItem, truthy]
  have h4 : loadCart (.json (.arr [.num (.fin 1)])) = .arr [.num (.fin 1)] := by
    simp [loadCart, jsonParseItem, truthy]
  refine ⟨h1, ?_, ?_, h2, ?_, h3, ?_, h4, ?_⟩
  · rw [h1]; simp
  · rw [h1]; simp [isCartValue]
  · rw [h2]; simp [isCartValue]
  · rw [h3]; simp [isCartValue]
  · rw [h4]; simp [isCartValue, isLineItem]

/-- C5, amended: `loadCart` always returns a value.  It returns the empty array when the key
is missing, when the text fails to parse, and when the text parses to a falsy value (`null`,
`false`, `0`, `""`); when the text parses to any other value it returns that value as it
is, with no check of its structure.  After `saveCart(C)` it returns `C`, which is a
sequence of line items. -/
theorem loadCart_falls_back_on_falsy :
    loadCart .missing = .arr [] ∧
    loadCart .unparsable = .arr [] ∧
    (∀ v, truthy v = false → loadCart (.json v) = .arr []) ∧
    (∀ v, truthy v = true → loadCart (.json v) = v) ∧
    (∀ C : Cart, loadCart (saveCart C) = encodeCart C ∧ isCartValue (loadCart (saveCart C)) = true) := by
  refine ⟨by simp [loadCart, jsonParseItem, truthy], by simp [loadCart, jsonParseItem], ?_, ?_, ?_⟩
  · intro v hv
    simp [loadCart, jsonParseItem, hv]
  · intro v hv
    simp [loadCart, jsonParseItem, hv]
  · intro C
    have h : loadCart (saveCart C) = encodeCart C := by
      simp [loadCart, saveCart, jsonParseItem, encodeCart, truthy]
    exact ⟨h, by rw [h]; exact isCartValue_encodeCart C⟩

/-- Witness of C5 (amended) on stored text that parses to `0` and to `[]`. -/
theorem loadCart_falls_back_on_falsy_witness :
    loadCart (.json (.num (.fin 0))) = .arr [] ∧ loadCart (.json (.arr [])) = .arr [] :=
  ⟨loadCart_falls_back_on_falsy.2.2.1 (.num (.fin 0)) (by simp [truthy, JSNum.truthy]),
    loadCart_falls_back_on_falsy.2.2.2.1 (.arr []) rfl⟩

/-! ## Checkout -/

theorem paymentSubmit_invalid (s : CheckoutState) : paymentSubmit false s = s := by
  simp [paymentSubmit]

theorem paymentSubmit_valid (s : CheckoutState) :
    (paymentSubmit true s).store = [] ∧
    (paymentSubmit true s).writes = s.writes + 1 ∧
    (paymentSubmit true s).badge = s.badge.map (fun _ => JSNum.fin 0) ∧
    (paymentSubmit true s).paymentHidden = s.paymentHidden ∧
    completionSignal s (paymentSubmit true s) := by
  cases hb : s.badge <;>
    simp [paymentSubmit, updateCartBadge, completionSignal, badgeQuantity, hb]

theorem toPaymentClick_invalid (toFixed : JSNum → Nat → String) (s : CheckoutState) :
    toPaymentClick toFixed false s = s := by
  simp [toPaymentClick]

theorem runCheckout_stays (toFixed : JSNum → Nat → String) (evs : List CheckoutEvent)
    (s : CheckoutState) (hs : s.step = .Delivery)
    (hevs : ∀ ev ∈ evs, ev ≠ .toPayment true) :
    (runCheckout toFixed evs s).step = .Delivery := by
  induction evs generalizing s with
  | nil => simpa [runCheckout] using hs
  | cons ev rest ih =>
    have hrest : ∀ e ∈ rest, e ≠ .toPayment true := fun e he =>
      hevs e (List.mem_cons_of_mem _ he)
    have hev : ev ≠ .toPayment true := hevs ev (List.mem_cons_self _ _)
    have hstep : (checkoutStep toFixed ev s).step = .Delivery := by
      cases ev with
      | toPayment v =>
        cases v
        · simpa [checkoutStep, toPaymentClick_invalid] using hs
        · exact absurd rfl hev
      | submitPayment v =>
        cases v
        · simpa [checkoutStep, paymentSubmit_invalid] using hs
        · simp only [checkoutStep, CheckoutState.step, (paymentSubmit_valid s).2.2.2.1]
          exact hs
    simpa [runCheckout] using ih (checkoutStep toFixed ev s) hstep hrest

/-- C8, counterexample: on the page in step Delivery whose stored cart holds one item, the
submit handler of the payment form, run with valid payment fields, empties the stored cart
and signals completion. -/
theorem placeOrder_in_delivery_clears :
    deliveryPage.step = .Delivery ∧
    deliveryPage.store ≠ [] ∧
    (paymentSubmit true deliveryPage).store = [] ∧
    completionSignal deliveryPage (paymentSubmit true deliveryPage) ∧
    ∀ toFixed, (checkoutStep toFixed (.submitPayment true) deliveryPage).store = [] := by
  refine ⟨rfl, by simp [deliveryPage], (paymentSubmit_valid _).1, (paymentSubmit_valid _).2.2.2.2, ?_⟩
  intro toFixed
  exact (paymentSubmit_valid _).1

/-- C8, amended: the place-order handler does not test the step; in either step it empties
the stored cart and signals completion exactly when the payment fields are valid, and
changes nothing otherwise.  The toPayment handler never writes the cart store and never
signals completion, and the page stays in step Delivery through every sequence of events
that has no toPayment click with valid delivery fields. -/
theorem placeOrder_guarded_by_validation_only (toFixed : JSNum → Nat → String) (s : CheckoutState) :
    (∀ valid, completionSignal s (paymentSubmit valid s) ↔ valid = true) ∧
    (paymentSubmit true s).store = [] ∧
    paymentSubmit false s = s ∧
    (∀ valid, (toPaymentClick toFixed valid s).store = s.store ∧
      (toPaymentClick toFixed valid s).writes = s.writes ∧
      (toPaymentClick toFixed valid s).alerts = s.alerts ∧
      (toPaymentClick toFixed valid s).location = s.location) ∧
    (∀ evs : List CheckoutEvent, s.step = .Delivery → (∀ ev ∈ evs, ev ≠ .toPayment true) →
      (runCheckout toFixed evs s).step = .Delivery) := by
  refine ⟨?_, (paymentSubmit_valid s).1, paymentSubmit_invalid s, ?_, ?_⟩
  · intro valid
    cases valid
    · simp [paymentSubmit_invalid, completionSignal]
    · simpa using (paymentSubmit_valid s).2.2.2.2
  · intro valid
    cases valid <;> simp [toPaymentClick]
  · intro evs hs hevs
    exact runCheckout_stays toFixed evs s hs hevs

/-- Witness of C8 (amended) on the page in step Delivery: after a toPayment click with a
blank required field and a payment submit with invalid fields the step is still Delivery. -/
theorem placeOrder_guarded_by_validation_only_witness :
    deliveryPage.step = .Delivery ∧
    (runCheckout toFixedNumber [.toPayment false, .submitPayment false] deliveryPage).step =
      .Delivery :=
  ⟨rfl, (placeOrder_guarded_by_validation_only toFixedNumber deliveryPage).2.2.2.2
    [.toPayment false, .submitPayment false] rfl (by simp)⟩

/-- C9: for every page state, with stored cart `C`, the place-order handler run with valid
payment fields leaves the cart store empty, written once, so that `loadCart` then returns
the empty cart and the badge quantity is 0 (the badge, when the page has one, shows 0), and
it signals completion; run with invalid payment fields it leaves the whole state, the cart
store included, as it was and signals nothing. -/
theorem placeOrder_clears_store (s : CheckoutState) :
    ((paymentSubmit true s).store = [] ∧
      (paymentSubmit true s).writes = s.writes + 1 ∧
      loadCart (saveCart (paymentSubmit true s).store) = .arr [] ∧
      badgeQuantity (paymentSubmit true s).store = .fin 0 ∧
      (paymentSubmit true s).badge = s.badge.map (fun _ => JSNum.fin 0) ∧
      completionSignal s (paymentSubmit true s)) ∧
    ((paymentSubmit false s).store = s.store ∧
      paymentSubmit false s = s ∧
      ¬ completionSignal s (paymentSubmit false s)) := by
  obtain ⟨h1, h2, h3, _, h5⟩ := paymentSubmit_valid s
  refine ⟨⟨h1, h2, ?_, ?_, h3, h5⟩, ?_, paymentSubmit_invalid s, ?_⟩
  · rw [h1]
    simp [loadCart, saveCart, jsonParseItem, encodeCart, truthy]
  · rw [h1]
    rfl
  · rw [paymentSubmit_invalid]
  · rw [paymentSubmit_invalid]
    simp [completionSignal]

/-- C10: for every page state in step Delivery, with stored cart `C`: when the delivery
form fails validation the toPayment handler leaves the state as it was, so the step is
still Delivery, the cart store is neither read nor written and the summary is unchanged;
when validation passes the step becomes Payment, the cart store is read once, not written
and still equal to `C`, and both summary totals are `formatPrice(cartTotal(C))`. -/
theorem toPayment_frame (toFixed : JSNum → Nat → String) (s : CheckoutState)
    (hs : s.step = .Delivery) :
    (toPaymentClick toFixed false s = s ∧
      (toPaymentClick toFixed false s).step = .Delivery ∧
      (toPaymentClick toFixed false s).reads = s.reads ∧
      (toPaymentClick toFixed false s).writes = s.writes ∧
      (toPaymentClick toFixed false s).summaryItemsTotal = s.summaryItemsTotal ∧
      (toPaymentClick toFixed false s).summaryOrderTotal = s.summaryOrderTotal) ∧
    ((toPaymentClick toFixed true s).step = .Payment ∧
      (toPaymentClick toFixed true s).reads = s.reads + 1 ∧
      (toPaymentClick toFixed true s).writes = s.writes ∧
      (toPaymentClick toFixed true s).store = s.store ∧
      (toPaymentClick toFixed true s).summaryItemsTotal =
        formatPrice toFixed (cartTotal s.store) ∧
      (toPaymentClick toFixed true s).summaryOrderTotal =
        formatPrice toFixed (cartTotal s.store)) := by
  constructor
  · rw [toPaymentClick_invalid]
    exact ⟨rfl, hs, rfl, rfl, rfl, rfl⟩
  · simp [toPaymentClick, CheckoutState.step]

/-- Witness of C10 on the page in step Delivery whose stored cart holds one item. -/
theorem toPayment_frame_witness :
    deliveryPage.step = .Delivery ∧
    (toPaymentClick toFixedNumber true deliveryPage).step = .Payment ∧
    (toPaymentClick toFixedNumber true deliveryPage).summaryOrderTotal =
      formatPrice toFixedNumber (cartTotal deliveryPage.store) :=
  ⟨rfl, (toPayment_frame toFixedNumber deliveryPage rfl).2.1,
    (toPayment_frame toFixedNumber deliveryPage rfl).2.2.2.2.2.2⟩

end Shadowstrength
